import Mathlib

/-!
# Verification of the steam-review-crawler core pipeline

This file gives a shallow embedding, in Lean 4, of the core of
`main.py` from the steam-review-crawler repository: deterministic review
IDs (`Review.generate_id`, SHA-256), author anonymization
(`uuid.uuid5(uuid.NAMESPACE_DNS, author)`, SHA-1 based), the canonical
`Review` record, timestamp-to-date conversion, the date-range filter, the
chunking/sorting function `organise_reviews`, and the cursor-pagination
driver `fetch_app_data`.

Modelling conventions:
* Machine-level hashing is carried out over `Nat` with explicit
  `% 2^32` reductions, on UTF-8 byte lists.
* Python's `datetime.datetime.fromtimestamp` and
  `datetime.datetime.strptime(..., "%Y-%m-%d")` are timezone-dependent
  in the source; the embedding fixes the UTC interpretation (both sides
  of every comparison use the same clock, so the filter semantics is
  unaffected by the choice).
* Python's `str.lower()` is modelled on the ASCII range (A–Z), which is
  the range exercised by the crawler's inputs.
* Dynamically-typed values (`review_list` holding both pages and bare
  dicts, optional JSON keys) are modelled with sum types and `Option`;
  a raised exception (`KeyError`, `TypeError`) is modelled as `none`.
* The fetch loop's opaque cursor is pure pass-through state (each
  request's cursor is the percent-encoded cursor of the previous
  response), so the provider is modelled as the sequence of its
  responses, indexed by request number.
-/

namespace Crawler

/-! ## Bytes, words and hex rendering -/

/-- Right rotation of a 32-bit word over `Nat`, result reduced `% 2^32`. -/
def rotr32 (n x : Nat) : Nat :=
  ((x >>> n) ||| (x <<< (32 - n))) % 4294967296

/-- Left rotation of a 32-bit word over `Nat`, result reduced `% 2^32`. -/
def rotl32 (n x : Nat) : Nat :=
  ((x <<< n) ||| (x >>> (32 - n))) % 4294967296

/-- The lowercase hex digit for a nibble (also used for decimal digits). -/
def hexDigit (n : Nat) : Char :=
  "0123456789abcdef".toList.getD n '0'

/-- Fixed-width lowercase hex rendering of `n`, `w` digits. -/
def toHexFixed : Nat → Nat → List Char
  | 0, _ => []
  | w + 1, n => toHexFixed w (n / 16) ++ [hexDigit (n % 16)]

/-- Big-endian byte rendering of `n`, `w` bytes. -/
def natToBytesBE : Nat → Nat → List Nat
  | 0, _ => []
  | w + 1, n => natToBytesBE w (n / 256) ++ [n % 256]

/-- Pack a byte list into big-endian 32-bit words (four bytes per word). -/
def bytesToWordsBE : List Nat → List Nat
  | b0 :: b1 :: b2 :: b3 :: rest =>
      (((b0 * 256 + b1) * 256 + b2) * 256 + b3) :: bytesToWordsBE rest
  | _ => []

/-- UTF-8 encoding of one character, as `Nat` bytes. -/
def utf8Encode (c : Char) : List Nat :=
  let v := c.toNat
  if v < 128 then [v]
  else if v < 2048 then [192 + v / 64, 128 + v % 64]
  else if v < 65536 then [224 + v / 4096, 128 + (v / 64) % 64, 128 + v % 64]
  else [240 + v / 262144, 128 + (v / 4096) % 64, 128 + (v / 64) % 64, 128 + v % 64]

/-- UTF-8 bytes of a string (models Python `str.encode("utf-8")`). -/
def strBytes (s : String) : List Nat :=
  s.toList.flatMap utf8Encode

/-- ASCII lowercasing of one character (models `str.lower()` on A–Z). -/
def asciiLowerChar (c : Char) : Char :=
  if 65 ≤ c.toNat ∧ c.toNat ≤ 90 then Char.ofNat (c.toNat + 32) else c

/-- ASCII lowercasing of a string (models `str.lower()`). -/
def asciiLower (s : String) : String :=
  ⟨s.toList.map asciiLowerChar⟩

/-! ## SHA-256 (used by `Review.generate_id` / `hashlib.sha256`) -/

/-- The 64 SHA-256 round constants (decimal rendering of the FIPS 180-4
table). -/
def sha256K : List Nat :=
  [1116352408, 1899447441, 3049323471, 3921009573, 961987163, 1508970993,
   2453635748, 2870763221, 3624381080, 310598401, 607225278, 1426881987,
   1925078388, 2162078206, 2614888103, 3248222580, 3835390401, 4022224774,
   264347078, 604807628, 770255983, 1249150122, 1555081692, 1996064986,
   2554220882, 2821834349, 2952996808, 3210313671, 3336571891, 3584528711,
   113926993, 338241895, 666307205, 773529912, 1294757372, 1396182291,
   1695183700, 1986661051, 2177026350, 2456956037, 2730485921, 2820302411,
   3259730800, 3345764771, 3516065817, 3600352804, 4094571909, 275423344,
   430227734, 506948616, 659060556, 883997877, 958139571, 1322822218,
   1537002063, 1747873779, 1955562222, 2024104815, 2227730452, 2361852424,
   2428436474, 2756734187, 3204031479, 3329325298]

/-- Extend the 16 message-schedule words to 64; `acc` holds the schedule so
far, most recent word first. -/
def sha256Extend : Nat → List Nat → List Nat
  | 0, acc => acc
  | n + 1, acc =>
      let w15 := acc.getD 14 0
      let w2 := acc.getD 1 0
      let w16 := acc.getD 15 0
      let w7 := acc.getD 6 0
      let s0 := (rotr32 7 w15) ^^^ (rotr32 18 w15) ^^^ (w15 >>> 3)
      let s1 := (rotr32 17 w2) ^^^ (rotr32 19 w2) ^^^ (w2 >>> 10)
      sha256Extend n (((w16 + s0 + w7 + s1) % 4294967296) :: acc)

/-- The eight 32-bit working variables of the SHA-256 compression loop. -/
structure Sha256State where
  a : Nat
  b : Nat
  c : Nat
  d : Nat
  e : Nat
  f : Nat
  g : Nat
  hh : Nat

/-- One SHA-256 compression round, for round constant and schedule word `kw`. -/
def sha256Round (s : Sha256State) (kw : Nat × Nat) : Sha256State :=
  let S1 := (rotr32 6 s.e) ^^^ (rotr32 11 s.e) ^^^ (rotr32 25 s.e)
  let ch := (s.e &&& s.f) ^^^ ((4294967295 - s.e % 4294967296) &&& s.g)
  let temp1 := (s.hh + S1 + ch + kw.1 + kw.2) % 4294967296
  let S0 := (rotr32 2 s.a) ^^^ (rotr32 13 s.a) ^^^ (rotr32 22 s.a)
  let maj := (s.a &&& s.b) ^^^ (s.a &&& s.c) ^^^ (s.b &&& s.c)
  let temp2 := (S0 + maj) % 4294967296
  ⟨(temp1 + temp2) % 4294967296, s.a, s.b, s.c, (s.d + temp1) % 4294967296, s.e, s.f, s.g⟩

/-- Process one 64-byte block, updating the eight-word hash value `H`. -/
def sha256Block (H : List Nat) (block : List Nat) : List Nat :=
  let w16 := bytesToWordsBE block
  let W := (sha256Extend 48 w16.reverse).reverse
  let init : Sha256State :=
    ⟨H.getD 0 0, H.getD 1 0, H.getD 2 0, H.getD 3 0, H.getD 4 0, H.getD 5 0, H.getD 6 0, H.getD 7 0⟩
  let s := (sha256K.zip W).foldl sha256Round init
  [(H.getD 0 0 + s.a) % 4294967296, (H.getD 1 0 + s.b) % 4294967296,
   (H.getD 2 0 + s.c) % 4294967296, (H.getD 3 0 + s.d) % 4294967296,
   (H.getD 4 0 + s.e) % 4294967296, (H.getD 5 0 + s.f) % 4294967296,
   (H.getD 6 0 + s.g) % 4294967296, (H.getD 7 0 + s.hh) % 4294967296]

/-- Fold the block function over `n` consecutive 64-byte blocks of `bytes`. -/
def sha256Blocks : Nat → List Nat → List Nat → List Nat
  | 0, H, _ => H
  | n + 1, H, bytes => sha256Blocks n (sha256Block H (bytes.take 64)) (bytes.drop 64)

/-- SHA-2 padding: `0x80`, zeros to 56 mod 64, then the bit length as
eight big-endian bytes. -/
def shaPad (msg : List Nat) : List Nat :=
  let padZeros := (119 - msg.length % 64) % 64
  msg ++ 0x80 :: (List.replicate padZeros 0 ++ natToBytesBE 8 (msg.length * 8))

/-- The SHA-256 initial hash value (decimal rendering). -/
def sha256H0 : List Nat :=
  [1779033703, 3144134277, 1013904242, 2773480762,
   1359893119, 2600822924, 528734635, 1541459225]

/-- SHA-256 digest of a byte list, as eight 32-bit words. -/
def sha256Words (msg : List Nat) : List Nat :=
  let padded := shaPad msg
  sha256Blocks (padded.length / 64) sha256H0 padded

/-- SHA-256 hex digest of a byte list (64 lowercase hex characters). -/
def sha256HexList (msg : List Nat) : List Char :=
  (sha256Words msg).flatMap (toHexFixed 8)

/-- SHA-256 hex digest of a string's UTF-8 bytes; models
`hashlib.sha256(s.encode("utf-8")).hexdigest()`. -/
def sha256Hex (s : String) : String :=
  ⟨sha256HexList (strBytes s)⟩

/-! ## SHA-1 and UUID v5 (used by `uuid.uuid5(uuid.NAMESPACE_DNS, author)`) -/

/-- The five 32-bit working variables of the SHA-1 compression loop. -/
structure Sha1State where
  a : Nat
  b : Nat
  c : Nat
  d : Nat
  e : Nat

/-- Extend the 16 message-schedule words to 80; `acc` holds the schedule so
far, most recent word first. -/
def sha1Extend : Nat → List Nat → List Nat
  | 0, acc => acc
  | n + 1, acc =>
      let w3 := acc.getD 2 0
      let w8 := acc.getD 7 0
      let w14 := acc.getD 13 0
      let w16 := acc.getD 15 0
      sha1Extend n ((rotl32 1 (w3 ^^^ w8 ^^^ w14 ^^^ w16)) :: acc)

/-- One SHA-1 compression round; `i` is the round index (0–79). -/
def sha1Round (s : Sha1State) (iw : Nat × Nat) : Sha1State :=
  let i := iw.1
  let f :=
    if i < 20 then (s.b &&& s.c) ||| ((4294967295 - s.b % 4294967296) &&& s.d)
    else if i < 40 then s.b ^^^ s.c ^^^ s.d
    else if i < 60 then (s.b &&& s.c) ||| (s.b &&& s.d) ||| (s.c &&& s.d)
    else s.b ^^^ s.c ^^^ s.d
  let k :=
    if i < 20 then 1518500249
    else if i < 40 then 1859775393
    else if i < 60 then 2400959708
    else 3395469782
  let temp := (rotl32 5 s.a + f + s.e + k + iw.2) % 4294967296
  ⟨temp, s.a, rotl32 30 s.b, s.c, s.d⟩

/-- Process one 64-byte block, updating the five-word SHA-1 hash value `H`. -/
def sha1Block (H : List Nat) (block : List Nat) : List Nat :=
  let w16 := bytesToWordsBE block
  let W := (sha1Extend 64 w16.reverse).reverse
  let init : Sha1State := ⟨H.getD 0 0, H.getD 1 0, H.getD 2 0, H.getD 3 0, H.getD 4 0⟩
  let s := ((List.range 80).zip W).foldl sha1Round init
  [(H.getD 0 0 + s.a) % 4294967296, (H.getD 1 0 + s.b) % 4294967296,
   (H.getD 2 0 + s.c) % 4294967296, (H.getD 3 0 + s.d) % 4294967296,
   (H.getD 4 0 + s.e) % 4294967296]

/-- Fold the SHA-1 block function over `n` consecutive 64-byte blocks. -/
def sha1Blocks : Nat → List Nat → List Nat → List Nat
  | 0, H, _ => H
  | n + 1, H, bytes => sha1Blocks n (sha1Block H (bytes.take 64)) (bytes.drop 64)

/-- The SHA-1 initial hash value (decimal rendering). -/
def sha1H0 : List Nat :=
  [1732584193, 4023233417, 2562383102, 271733878, 3285377520]

/-- SHA-1 digest of a byte list, as a 20-byte list. -/
def sha1Bytes (msg : List Nat) : List Nat :=
  let padded := shaPad msg
  (sha1Blocks (padded.length / 64) sha1H0 padded).flatMap (natToBytesBE 4)

/-- The 16 bytes of `uuid.NAMESPACE_DNS`
(`6ba7b810-9dad-11d1-80b4-00c04fd430c8`), in decimal. -/
def uuidNamespaceDNS : List Nat :=
  [107, 167, 184, 16, 157, 173, 17, 209, 128, 180, 0, 192, 79, 212, 48, 200]

/-- Render 16 UUID bytes in the canonical 8-4-4-4-12 dashed lowercase-hex
form (36 characters). -/
def uuidFormat (b : List Nat) : String :=
  let hx := b.flatMap (toHexFixed 2)
  ⟨hx.take 8 ++ '-' :: ((hx.drop 8).take 4) ++ '-' :: ((hx.drop 12).take 4)
     ++ '-' :: ((hx.drop 16).take 4) ++ '-' :: hx.drop 20⟩

/-- Models `str(uuid.uuid5(uuid.NAMESPACE_DNS, name))`: SHA-1 of the
namespace bytes followed by the UTF-8 name, truncated to 16 bytes, with
the version (5) and variant bits set, rendered in canonical form. -/
def uuid5dns (name : String) : String :=
  let d := (sha1Bytes (uuidNamespaceDNS ++ strBytes name)).take 16
  let d := d.set 6 (d.getD 6 0 % 16 + 80)
  let d := d.set 8 (d.getD 8 0 % 64 + 128)
  uuidFormat d

/-! ## Calendar dates (UTC model of `fromtimestamp` / `strptime`) -/

/-- Civil date `(year, month, day)` of a day count since 1970-01-01
(proleptic Gregorian; valid for the post-1970 range used here). -/
def civilFromDays (z0 : Nat) : Nat × Nat × Nat :=
  let z := z0 + 719468
  let era := z / 146097
  let doe := z % 146097
  let yoe := (doe - doe / 1460 + doe / 36524 - doe / 146096) / 365
  let y := yoe + era * 400
  let doy := doe - (365 * yoe + yoe / 4 - yoe / 100)
  let mp := (5 * doy + 2) / 153
  let d := doy - (153 * mp + 2) / 5 + 1
  let m := if mp < 10 then mp + 3 else mp - 9
  (if m ≤ 2 then y + 1 else y, m, d)

/-- Day count since 1970-01-01 of a civil date (inverse of
`civilFromDays` on the post-1970 range). -/
def daysFromCivil (y m d : Nat) : Nat :=
  let y := if m ≤ 2 then y - 1 else y
  let era := y / 400
  let yoe := y % 400
  let doy := (153 * (if m > 2 then m - 3 else m + 9) + 2) / 5 + d - 1
  let doe := yoe * 365 + yoe / 4 - yoe / 100 + doy
  era * 146097 + doe - 719468

/-- Two-digit zero-padded decimal rendering. -/
def pad2 (n : Nat) : List Char :=
  [hexDigit (n / 10 % 10), hexDigit (n % 10)]

/-- Four-digit zero-padded decimal rendering. -/
def pad4 (n : Nat) : List Char :=
  [hexDigit (n / 1000 % 10), hexDigit (n / 100 % 10), hexDigit (n / 10 % 10), hexDigit (n % 10)]

/-- Models `datetime.datetime.fromtimestamp(ts).strftime("%Y-%m-%d")`
under the UTC clock: the `YYYY-MM-DD` string of an epoch-seconds value. -/
def epochToDate (ts : Nat) : String :=
  match civilFromDays (ts / 86400) with
  | (y, m, d) => ⟨pad4 y ++ '-' :: (pad2 m ++ '-' :: pad2 d)⟩

/-- Numeric value of a decimal digit character. -/
def digVal (c : Char) : Nat := c.toNat - 48

/-- Parse a `YYYY-MM-DD` string to `(year, month, day)`.  `strptime`
raises on malformed input; the filter is only reached with validated
date strings, so malformed input is mapped to a junk date. -/
def parseDate (s : String) : Nat × Nat × Nat :=
  match s.toList with
  | [y1, y2, y3, y4, _, m1, m2, _, d1, d2] =>
      (digVal y1 * 1000 + digVal y2 * 100 + digVal y3 * 10 + digVal y4,
       digVal m1 * 10 + digVal m2, digVal d1 * 10 + digVal d2)
  | _ => (1900, 1, 1)

/-- Models `datetime.datetime.strptime(s, "%Y-%m-%d")` under the UTC
clock: the epoch-seconds value of midnight on the parsed date. -/
def dateStrToEpoch (s : String) : Nat :=
  match parseDate s with
  | (y, m, d) => daysFromCivil y m d * 86400

/-- The date filter of `organise_reviews` (lines 193–199):
`strptime(date_filters[0]) >= fromtimestamp(ts) >= strptime(date_filters[1])`,
i.e. the review's timestamp lies between midnight of the lower date and
midnight of the upper date, inclusive, at seconds granularity. -/
def dateFilterPass (f0 f1 : String) (ts : Nat) : Bool :=
  decide (ts ≤ dateStrToEpoch f0) && decide (dateStrToEpoch f1 ≤ ts)

/-! ## The canonical `Review` record and the normalizer -/

/-- The canonical review record.  Its fields are exactly the attributes
assigned in `Review.__init__` (lines 44–54): note that there is no
`source` field — the constructor receives a `source` argument but never
assigns it. -/
structure Review where
  id : String
  author : String
  date : String
  hours : Nat
  content : String
  comments : Nat
  helpful : Nat
  funny : Nat
  recommend : Bool
  franchise : List String
  appName : String
deriving Repr, DecidableEq

/-- Models `Review.generate_id` (lines 56–74): SHA-256 hex digest of the
lowercased `"{appName}-{content}-{author}"`, where `author` is the raw
Steam ID the constructor was called with. -/
def generate_id (appName content author : String) : String :=
  sha256Hex (asciiLower (appName ++ "-" ++ content ++ "-" ++ author))

/-- Models `Review.__init__` (lines 14–54).  The `source` argument is accepted
and dropped, mirroring the source, which never assigns `self.source`.
`id` is computed from the raw `author` argument; the stored `author` is
the anonymized `str(uuid.uuid5(uuid.NAMESPACE_DNS, author))`. -/
def mkReview (author date : String) (hours : Nat) (content : String) (comments : Nat)
    (source : String) (helpful funny : Nat) (recommend : Bool)
    (franchise : List String) (appName : String) : Review :=
  { id := generate_id appName content author
    author := uuid5dns author
    date := date
    hours := hours
    content := content
    comments := comments
    helpful := helpful
    funny := funny
    recommend := recommend
    franchise := franchise
    appName := appName }

/-- A value stored in a serialized review dict. -/
inductive FieldVal where
  | s (v : String)
  | n (v : Nat)
  | b (v : Bool)
  | l (v : List String)
deriving Repr, DecidableEq

/-- Models the `__dict__` of a `Review` object, in attribute-assignment order:
the key/value pairs actually serialized by `json.dump`. -/
def Review.toDict (r : Review) : List (String × FieldVal) :=
  [("id", .s r.id), ("author", .s r.author), ("date", .s r.date),
   ("hours", .n r.hours), ("content", .s r.content), ("comments", .n r.comments),
   ("helpful", .n r.helpful), ("funny", .n r.funny), ("recommend", .b r.recommend),
   ("franchise", .l r.franchise), ("appName", .s r.appName)]

/-- One raw review record of a review-listing response, with the fields
consumed by `organise_reviews`. -/
structure RawReview where
  author_steamid : String
  playtime_at_review : Nat
  timestamp_created : Nat
  review : String
  comment_count : Nat
  votes_up : Nat
  votes_funny : Nat
  voted_up : Bool
deriving Repr, DecidableEq

/-- One review-listing response page, with the fields consumed by
`fetch_app_data` and `organise_reviews`.  `success` is `none` when the
response has no `"success"` key. -/
structure RawPage where
  num_reviews : Nat
  reviews : List RawReview
  cursor : String
  success : Option Bool
deriving Repr, DecidableEq

/-- The app-metadata entry `game_data[str(app_id)]`.  `success` is `none`
when the `"success"` key is missing; `developers` is `none` when
`data` has no `"developers"` key (in which case the source raises
`KeyError`). -/
structure GameEntry where
  success : Option Bool
  name : String
  developers : Option (List String)
  dataType : String
deriving Repr, DecidableEq

/-- The `Review(...)` construction of `organise_reviews` (lines 167–181 /
200–214), given a present developer list `devs`. -/
def normalizeD (devs : List String) (gd : GameEntry) (r : RawReview) : Review :=
  mkReview r.author_steamid (epochToDate r.timestamp_created) r.playtime_at_review
    r.review r.comment_count "steam" r.votes_up r.votes_funny r.voted_up devs gd.name

/-- Normalization of one raw review: the `Review(...)` construction of
`organise_reviews`, which reads `game_data[app_id]["data"]["developers"]`
— a `KeyError` (modelled `none`) when the metadata lacks a developer
list. -/
def normalize (r : RawReview) (gd : GameEntry) : Option Review :=
  gd.developers.map fun devs => normalizeD devs gd r

/-! ## The sort key of `organise_reviews` -/

/-- The sort order used by `sorted(review_list[i], key=lambda x:
(x["date"], x["id"]))`: ascending lexicographic on the `(date, id)`
pair of strings. -/
def keyLe (a b : Review) : Prop :=
  a.date < b.date ∨ (a.date = b.date ∧ a.id ≤ b.id)

instance : DecidableRel keyLe := fun a b =>
  inferInstanceAs (Decidable (a.date < b.date ∨ (a.date = b.date ∧ a.id ≤ b.id)))

instance : IsTotal Review keyLe where
  total a b := by
    rcases lt_trichotomy a.date b.date with h | h | h
    · exact Or.inl (Or.inl h)
    · rcases le_total a.id b.id with h2 | h2
      · exact Or.inl (Or.inr ⟨h, h2⟩)
      · exact Or.inr (Or.inr ⟨h.symm, h2⟩)
    · exact Or.inr (Or.inl h)

instance : IsTrans Review keyLe where
  trans a b c hab hbc := by
    rcases hab with h1 | ⟨h1, h1i⟩
    · rcases hbc with h2 | ⟨h2, _⟩
      · exact Or.inl (h1.trans h2)
      · exact Or.inl (h2 ▸ h1)
    · rcases hbc with h2 | ⟨h2, h2i⟩
      · exact Or.inl (h1 ▸ h2)
      · exact Or.inr ⟨h1.trans h2, h1i.trans h2i⟩

/-! ## `organise_reviews` (lines 140–221) -/

/-- A top-level element of the `review_list` local of `organise_reviews`.
On the no-filter path every element is a page (a Python list); on the
filter path, bare review dicts are appended at top level. -/
inductive RLElem where
  | chunk (l : List Review)
  | dict (r : Review)
deriving Repr, DecidableEq

/-- The loop state of `organise_reviews`: the `review_list`, `counter`
and `pageNum` locals. -/
structure OrgState where
  review_list : List RLElem
  counter : Nat
  pageNum : Nat
deriving Repr, DecidableEq

/-- Replace the element at index `i` (out-of-range indices untouched). -/
def modifyAt : List α → Nat → (α → α) → List α
  | [], _, _ => []
  | x :: xs, 0, f => f x :: xs
  | x :: xs, n + 1, f => x :: modifyAt xs n f

/-- Models `review_list[pageNum].append(review_dict)`: append `r` to the page at
index `i`.  A `dict` element is left unchanged (on the path that uses
this operation, element `i` is always a page). -/
def appendToPage (rl : List RLElem) (i : Nat) (r : Review) : List RLElem :=
  modifyAt rl i fun e =>
    match e with
    | .chunk l => .chunk (l ++ [r])
    | .dict d => .dict d

/-- One iteration of the no-filter loop of `organise_reviews`
(lines 160–183): start a new page once the counter reaches 5000, then
construct the `Review` (a `KeyError` on a missing developer list aborts,
modelled by `Option`) and append it to the current page. -/
def orgStepNF (gd : GameEntry) (s : OrgState) (r : RawReview) : Option OrgState :=
  let s :=
    if s.counter == 5000 then
      { review_list := s.review_list ++ [.chunk []], counter := 0, pageNum := s.pageNum + 1 }
    else s
  (normalize r gd).map fun rev =>
    { review_list := appendToPage s.review_list s.pageNum rev
      counter := s.counter + 1
      pageNum := s.pageNum }

/-- One iteration of the filter loop of `organise_reviews`
(lines 186–216): start a new page once the counter reaches 5000, then,
when the review passes the date filter, construct the `Review` and
append it — to `review_list` itself, at top level (line 215), not to
the current page. -/
def orgStepF (gd : GameEntry) (f0 f1 : String) (s : OrgState) (r : RawReview) : Option OrgState :=
  let s :=
    if s.counter == 5000 then
      { review_list := s.review_list ++ [.chunk []], counter := 0, pageNum := s.pageNum + 1 }
    else s
  if dateFilterPass f0 f1 r.timestamp_created then
    (normalize r gd).map fun rev =>
      { review_list := s.review_list ++ [.dict rev]
        counter := s.counter + 1
        pageNum := s.pageNum }
  else some s

/-- The final per-element sorting loop (lines 219–220):
`review_list[i] = sorted(review_list[i], key=lambda x: (x["date"], x["id"]))`.
Sorting a page sorts its entries by `(date, id)`; reaching a bare dict
raises a `TypeError` (sorting a dict iterates its string keys and the
key lambda then subscripts a string), modelled `none`. -/
def sortAll : List RLElem → Option (List RLElem)
  | [] => some []
  | .chunk l :: rest => (sortAll rest).map (RLElem.chunk (l.insertionSort keyLe) :: ·)
  | .dict _ :: _ => none

/-- Models `organise_reviews(reviews_array, game_data, date_filters, app_id)`
(lines 140–221).  `df = none` models `date_filters == [None, None]`;
`df = some (f0, f1)` models two date strings.  The state starts as
`review_list = [[]], counter = 0, pageNum = 0`; the nested loops walk
every page's `reviews` in order; the returned value is the review list
after the per-element sorting loop.  Exceptions are modelled `none`. -/
def organise_reviews (pages : List RawPage) (gd : GameEntry)
    (df : Option (String × String)) : Option (List RLElem) := do
  let s0 : OrgState := { review_list := [.chunk []], counter := 0, pageNum := 0 }
  let final ←
    match df with
    | none => pages.foldlM (fun s p => p.reviews.foldlM (orgStepNF gd) s) s0
    | some (f0, f1) => pages.foldlM (fun s p => p.reviews.foldlM (orgStepF gd f0 f1) s) s0
  sortAll final.review_list

/-- The reviews carried by one `review_list` element. -/
def elemReviews : RLElem → List Review
  | .chunk l => l
  | .dict r => [r]

/-- All raw reviews of a fetched page sequence, in crawl order. -/
def allRaw (pages : List RawPage) : List RawReview :=
  pages.flatMap (·.reviews)

/-- Chunks of at most 5000, in input order: chunk `k` holds indices
`[5000k, 5000k + 5000)` of `l`; an empty input yields one empty chunk. -/
def chunks5000 (l : List Review) : List (List Review) :=
  if l.length ≤ 5000 then [l]
  else l.take 5000 :: chunks5000 (l.drop 5000)
  termination_by l.length
  decreasing_by
    simp only [List.length_drop]
    omega

/-! ## `fetch_app_data` (lines 78–137) -/

/-- The observable outcome of `fetch_app_data`: its return value plus the
number of review-page requests and metadata requests issued. -/
structure FetchOutcome where
  result : Except String (List RawPage × GameEntry)
  pageRequests : Nat
  metaRequests : Nat
deriving Repr

/-- The review-fetch loop (lines 112–122): up to `remaining` iterations;
each iteration issues one page request (`provider i` is the response to
the `i`-th request — requests are strictly sequential, each cursor
coming from the previous response, so the provider is modelled as its
response sequence); a response reporting `num_reviews == 0` breaks out
of the loop without being accumulated.  Returns the accumulated pages,
the last response seen (`review_data`), and the number of requests. -/
def fetchLoop (provider : Nat → RawPage) :
    Nat → Nat → List RawPage → Option RawPage → List RawPage × Option RawPage × Nat
  | 0, i, acc, last => (acc, last, i)
  | n + 1, i, acc, _ =>
      let resp := provider i
      if resp.num_reviews == 0 then (acc, some resp, i + 1)
      else fetchLoop provider n (i + 1) (acc ++ [resp]) (some resp)

/-- Models `"success" in review_data and review_data["success"]` for the last
review response (`none` models the loop body never having run, which in
the source would leave `review_data` unbound). -/
def lastRespOk : Option RawPage → Bool
  | none => false
  | some p => p.success == some true

/-- Models `fetch_app_data(app_id, date_filters, numReviews)` (lines 78–137) for
`numReviews = n ≥ 1` (the `numReviews == 0` branch runs the same loop
body unboundedly until the zero-result signal; for a provider that
signals zero within `n` requests it coincides with `fetchLoop` at `n`).
After the review loop, exactly one metadata request is issued
(`gd` is its response entry for the app id); both the last review
response and the metadata response must report success, else the
uniform failure value `"reviews not found"` is returned. -/
def fetch_app_data (provider : Nat → RawPage) (gd : GameEntry) (n : Nat) : FetchOutcome :=
  match fetchLoop provider n 0 [] none with
  | (pages, last, reqs) =>
      { result :=
          if lastRespOk last && (gd.success == some true) then .ok (pages, gd)
          else .error "reviews not found"
        pageRequests := reqs
        metaRequests := 1 }

/-! ## Derived forms used by the correctness statements -/

/-- The no-filter loop body when the developer list is present: the total
function underlying `orgStepNF`. -/
def orgStepNFD (devs : List String) (gd : GameEntry) (s : OrgState) (r : RawReview) : OrgState :=
  let s :=
    if s.counter == 5000 then
      { review_list := s.review_list ++ [.chunk []], counter := 0, pageNum := s.pageNum + 1 }
    else s
  { review_list := appendToPage s.review_list s.pageNum (normalizeD devs gd r)
    counter := s.counter + 1
    pageNum := s.pageNum }

/-- The page structure produced by the no-filter loop, described
cursor-style: `fillChunks cur rs` is the final list of pages when the
current (last) page already holds `cur` and the reviews `rs` remain to
be appended, a fresh page being started whenever the current one holds
5000 entries. -/
def fillChunks (cur : List Review) : List Review → List (List Review)
  | [] => [cur]
  | x :: xs =>
      if cur.length == 5000 then cur :: fillChunks [x] xs
      else fillChunks (cur ++ [x]) xs

/-- The whole normalized review collection of a run, in crawl order. -/
def allNorm (devs : List String) (gd : GameEntry) (pages : List RawPage) : List Review :=
  (allRaw pages).map (normalizeD devs gd)

/-! ## Concrete run inputs (mirroring the mock data of `test.py`) -/

/-- The mock raw review of `test.py` (timestamp 1633305600 = 2021-10-04 UTC). -/
def raw1 : RawReview :=
  { author_steamid := "123456", playtime_at_review := 10, timestamp_created := 1633305600,
    review := "Good game", comment_count := 3, votes_up := 10, votes_funny := 5, voted_up := true }

/-- The mock app-metadata entry of `test.py`. -/
def gd1 : GameEntry :=
  { success := some true, name := "CoolGame", developers := some ["GameDev"], dataType := "game" }

/-- An app-metadata entry whose `data` dict has no `"developers"` key. -/
def gdNoDevs : GameEntry :=
  { success := some true, name := "CoolGame", developers := none, dataType := "game" }

/-- A non-empty review page carrying `raw1`. -/
def page1 : RawPage :=
  { num_reviews := 1, reviews := [raw1], cursor := "*", success := some true }

/-- A response reporting zero reviews (the terminal signal of the fetch loop). -/
def zeroPage : RawPage :=
  { num_reviews := 0, reviews := [], cursor := "next", success := some true }

/-- A provider returning one non-empty page and then the zero-result signal. -/
def provider2 : Nat → RawPage :=
  fun i => if i == 0 then page1 else zeroPage

/-- A raw review dated 1970-01-01 (timestamp 0). -/
def rawEarly : RawReview :=
  { author_steamid := "111", playtime_at_review := 1, timestamp_created := 0,
    review := "early", comment_count := 0, votes_up := 0, votes_funny := 0, voted_up := true }

/-- A raw review dated 1970-01-02 (timestamp 86400). -/
def rawLate : RawReview :=
  { author_steamid := "222", playtime_at_review := 1, timestamp_created := 86400,
    review := "late", comment_count := 0, votes_up := 0, votes_funny := 0, voted_up := false }

/-- A run of 5001 reviews in which the 5000 later-dated reviews arrive
before the single earliest one: chunk 0 is filled with the late reviews
and the early review lands alone in chunk 1, although it precedes all of
them in the globally sorted order. -/
def cexPages : List RawPage :=
  [{ num_reviews := 5001, reviews := List.replicate 5000 rawLate ++ [rawEarly],
     cursor := "*", success := some true }]

/-- A run of 10001 identical raw reviews, for the three-chunk size check. -/
def wPages : List RawPage :=
  [{ num_reviews := 10001, reviews := List.replicate 10001 raw1,
     cursor := "*", success := some true }]

/-- The normalized form of `rawLate` under `gd1` (date 1970-01-02). -/
def revLate : Review := normalizeD ["GameDev"] gd1 rawLate

/-- The normalized form of `rawEarly` under `gd1` (date 1970-01-01). -/
def revEarly : Review := normalizeD ["GameDev"] gd1 rawEarly

/-! ## Sorting lemmas for the (date, id) key order -/

theorem keyLe_refl (x : Review) : keyLe x x :=
  Or.inr ⟨rfl, le_refl _⟩

theorem orderedInsert_replicate_self (x : Review) (n : Nat) :
    List.orderedInsert keyLe x (List.replicate n x) = List.replicate (n + 1) x := by
  cases n with
  | zero => rfl
  | succ n =>
      simp only [List.replicate_succ, List.orderedInsert, if_pos (keyLe_refl x)]

theorem insertionSort_replicate (x : Review) (n : Nat) :
    List.insertionSort keyLe (List.replicate n x) = List.replicate n x := by
  induction n with
  | zero => rfl
  | succ n ih =>
      rw [List.replicate_succ, List.insertionSort, ih, orderedInsert_replicate_self,
        List.replicate_succ]

theorem insertionSort_replicate_append (x s : Review) (hxs : ¬ keyLe x s) (n : Nat) :
    List.insertionSort keyLe (List.replicate n x ++ [s]) = s :: List.replicate n x := by
  induction n with
  | zero => rfl
  | succ n ih =>
      rw [List.replicate_succ, List.cons_append, List.insertionSort, ih]
      simp only [List.orderedInsert, if_neg hxs, orderedInsert_replicate_self]
      rw [List.replicate_succ]

/-! ## Chunking lemmas -/

theorem chunks5000_eq (l : List Review) :
    chunks5000 l = if l.length ≤ 5000 then [l] else l.take 5000 :: chunks5000 (l.drop 5000) := by
  rw [chunks5000]

theorem chunks5000_flatten_fuel :
    ∀ (N : Nat) (l : List Review), l.length ≤ N → (chunks5000 l).flatten = l := by
  intro N
  induction N with
  | zero =>
      intro l h
      rw [chunks5000_eq, if_pos (by omega)]
      simp
  | succ N ih =>
      intro l h
      rw [chunks5000_eq]
      by_cases h5 : l.length ≤ 5000
      · rw [if_pos h5]; simp
      · rw [if_neg h5, List.flatten_cons, ih (l.drop 5000) (by simp; omega)]
        exact List.take_append_drop 5000 l

theorem chunks5000_flatten (l : List Review) : (chunks5000 l).flatten = l :=
  chunks5000_flatten_fuel l.length l le_rfl

theorem chunks5000_getElem_fuel :
    ∀ (N : Nat) (l : List Review), l.length ≤ N →
      ∀ (k : Nat) (hk : k < (chunks5000 l).length),
        (chunks5000 l)[k] = (l.drop (5000 * k)).take 5000 := by
  intro N
  induction N with
  | zero =>
      intro l h k hk
      have hc : chunks5000 l = [l] := by rw [chunks5000_eq, if_pos (by omega)]
      simp only [hc] at hk ⊢
      have hk0 : k = 0 := by simpa using hk
      subst hk0
      simp [List.take_of_length_le (show l.length ≤ 5000 by omega)]
  | succ N ih =>
      intro l h k hk
      by_cases h5 : l.length ≤ 5000
      · have hc : chunks5000 l = [l] := by rw [chunks5000_eq, if_pos h5]
        simp only [hc] at hk ⊢
        have hk0 : k = 0 := by simpa using hk
        subst hk0
        simp [List.take_of_length_le h5]
      · have hc : chunks5000 l = l.take 5000 :: chunks5000 (l.drop 5000) := by
          rw [chunks5000_eq, if_neg h5]
        simp only [hc] at hk ⊢
        cases k with
        | zero => simp
        | succ k =>
            have hk2 : k < (chunks5000 (l.drop 5000)).length := by simpa using hk
            simp only [List.getElem_cons_succ]
            rw [ih (l.drop 5000) (by simp; omega) k hk2, List.drop_drop]
            have harith : 5000 + 5000 * k = 5000 * (k + 1) := by ring
            rw [harith]

theorem chunks5000_getElem (l : List Review) (k : Nat) (hk : k < (chunks5000 l).length) :
    (chunks5000 l)[k] = (l.drop (5000 * k)).take 5000 :=
  chunks5000_getElem_fuel l.length l le_rfl k hk

theorem chunks5000_map_length_10001 (l : List Review) (h : l.length = 10001) :
    (chunks5000 l).map List.length = [5000, 5000, 1] := by
  rw [chunks5000_eq, if_neg (by omega)]
  rw [chunks5000_eq, if_neg (by simp; omega)]
  rw [chunks5000_eq, if_pos (by simp; omega)]
  simp [h]

/-! ## Rendering lemmas: digest lengths and hex character sets -/

theorem length_flatMap_const {α β : Type} (f : α → List β) (k : Nat) (l : List α)
    (h : ∀ x, (f x).length = k) : (l.flatMap f).length = k * l.length := by
  induction l with
  | nil => simp
  | cons x xs ih =>
      simp only [List.flatMap_cons, List.length_append, ih, h, List.length_cons]
      ring

theorem toHexFixed_length (w : Nat) : ∀ n, (toHexFixed w n).length = w := by
  induction w with
  | zero => intro n; rfl
  | succ w ih => intro n; simp [toHexFixed, ih]

theorem natToBytesBE_length (w : Nat) : ∀ n, (natToBytesBE w n).length = w := by
  induction w with
  | zero => intro n; rfl
  | succ w ih => intro n; simp [natToBytesBE, ih]

theorem sha256Block_length (H b : List Nat) : (sha256Block H b).length = 8 := rfl

theorem sha256Blocks_length (n : Nat) :
    ∀ H b, H.length = 8 → (sha256Blocks n H b).length = 8 := by
  induction n with
  | zero => intro H b h; exact h
  | succ n ih => intro H b _; exact ih _ _ (sha256Block_length H (b.take 64))

theorem sha256Words_length (msg : List Nat) : (sha256Words msg).length = 8 :=
  sha256Blocks_length _ _ _ rfl

theorem sha256Hex_length (s : String) : (sha256Hex s).length = 64 := by
  show (sha256HexList (strBytes s)).length = 64
  rw [sha256HexList, length_flatMap_const _ 8 _ (fun x => toHexFixed_length 8 x),
    sha256Words_length]

theorem hexDigit_mem (n : Nat) : hexDigit n ∈ "0123456789abcdef".toList := by
  have hlen : ("0123456789abcdef".toList).length = 16 := rfl
  rw [hexDigit]
  rcases Nat.lt_or_ge n 16 with h | h
  · rw [List.getD_eq_getElem?_getD, List.getElem?_eq_getElem (by rw [hlen]; exact h)]
    exact List.getElem_mem _
  · rw [List.getD_eq_getElem?_getD, List.getElem?_eq_none (by rw [hlen]; exact h)]
    decide

theorem toHexFixed_mem (w : Nat) :
    ∀ n c, c ∈ toHexFixed w n → c ∈ "0123456789abcdef".toList := by
  induction w with
  | zero => intro n c h; cases h
  | succ w ih =>
      intro n c h
      rw [toHexFixed, List.mem_append] at h
      rcases h with h | h
      · exact ih _ _ h
      · rw [List.mem_singleton] at h
        exact h ▸ hexDigit_mem _

theorem sha256Hex_chars (s : String) :
    ∀ c ∈ (sha256Hex s).toList, c ∈ "0123456789abcdef".toList := by
  intro c hc
  have hc2 : c ∈ sha256HexList (strBytes s) := hc
  rw [sha256HexList, List.mem_flatMap] at hc2
  obtain ⟨w, _, hw⟩ := hc2
  exact toHexFixed_mem 8 w c hw

/-! ## Claim C2 -/

/-- C2: for every appName, content and raw author identifier, the id of the
constructed `Review` equals the hex-encoded SHA-256 digest of the
lowercased "{appName}-{content}-{rawAuthorId}" string, is a string of 64
hex characters, and is computed from the raw author identifier — the
record's stored `author` being the anonymized value, not the id input. -/
theorem C2_id_is_sha256_hex (appName content author date src : String)
    (hours comments helpful funny : Nat) (recommend : Bool) (franchise : List String) :
    (mkReview author date hours content comments src helpful funny recommend
        franchise appName).id
      = sha256Hex (asciiLower (appName ++ "-" ++ content ++ "-" ++ author)) ∧
    (mkReview author date hours content comments src helpful funny recommend
        franchise appName).author = uuid5dns author ∧
    (generate_id appName content author).length = 64 ∧
    ∀ c ∈ (generate_id appName content author).toList, c ∈ "0123456789abcdef".toList :=
  ⟨rfl, rfl, sha256Hex_length _, sha256Hex_chars _⟩

/-! ## Claim C10 -/

/-- C10: the serialized field set of every emitted record.  The key list of
a `Review.__dict__` — the exact fields written to the output JSON — does
not contain `"source"`: `Review.__init__` receives the `source` argument
but never assigns it, so no record carries a source field. -/
theorem C10_no_source_field (r : Review) :
    ((Review.toDict r).map Prod.fst)
      = ["id", "author", "date", "hours", "content", "comments", "helpful", "funny",
         "recommend", "franchise", "appName"] ∧
    "source" ∉ (Review.toDict r).map Prod.fst := by
  refine ⟨rfl, ?_⟩
  intro h
  simp only [Review.toDict, List.map_cons, List.map_nil] at h
  simp at h

/-! ## Claim C4 -/

/-- C4 (amended): normalization is total in every field except the
developer list: it produces a `Review` exactly when the metadata carries
a developer list (a missing list raises `KeyError`, modelled `none`,
rather than degrading to "Unknown"), and the franchise of a produced
record is the metadata's developer list itself. -/
theorem C4_normalize_requires_developers (r : RawReview) (gd : GameEntry) :
    ((normalize r gd).isSome ↔ gd.developers.isSome) ∧
    (∀ devs, gd.developers = some devs →
      normalize r gd = some (normalizeD devs gd r) ∧ (normalizeD devs gd r).franchise = devs) := by
  constructor
  · cases h : gd.developers <;> simp [normalize, h]
  · intro devs h
    exact ⟨by simp [normalize, h], rfl⟩

/-- Witness for C4: the concrete metadata entry `gd1` carries
`["GameDev"]`, and normalization of `raw1` succeeds with that franchise. -/
theorem C4_normalize_requires_developers_witness :
    gd1.developers = some ["GameDev"] ∧
    (normalize raw1 gd1 = some (normalizeD ["GameDev"] gd1 raw1) ∧
      (normalizeD ["GameDev"] gd1 raw1).franchise = ["GameDev"]) :=
  ⟨rfl, (C4_normalize_requires_developers raw1 gd1).2 ["GameDev"] rfl⟩

/-- Counterexample for C4 as stated: with metadata lacking a developer
list, normalization produces no `Review` at all (the claimed "Unknown"
fallback does not exist), and the organise pipeline aborts likewise. -/
theorem C4_missing_developers_counterexample :
    normalize raw1 gdNoDevs = none ∧ organise_reviews [page1] gdNoDevs none = none :=
  ⟨rfl, rfl⟩

/-! ## Claim C5 -/

/-- C5 (amended): a review passes the date filter iff its timestamp lies
between midnight of the lower bound date and midnight of the upper bound
date, inclusive, compared at seconds granularity; so 2023-03-15 noon is
kept and 2023-01-01 and 2023-12-01 are excluded with bounds
(2023-03-10, 2023-03-20) — but a review on the upper bound date itself is
kept only at exactly midnight. -/
theorem C5_date_filter_semantics (f0 f1 : String) (ts : Nat) :
    (dateFilterPass f0 f1 ts = true ↔ dateStrToEpoch f1 ≤ ts ∧ ts ≤ dateStrToEpoch f0) ∧
    dateFilterPass "2023-03-20" "2023-03-10" 1678881600 = true ∧
    dateFilterPass "2023-03-20" "2023-03-10" 1672574400 = false ∧
    dateFilterPass "2023-03-20" "2023-03-10" 1701432000 = false ∧
    dateFilterPass "2023-03-20" "2023-03-10" 1679270400 = true ∧
    dateFilterPass "2023-03-20" "2023-03-10" 1679324400 = false := by
  refine ⟨?_, by decide, by decide, by decide, by decide, by decide⟩
  simp [dateFilterPass, and_comm]

/-- Counterexample for C5 as stated: the review at timestamp 1679324400
(2023-03-20, 15:00) has calendar date 2023-03-20, which lies inside the
inclusive date range [2023-03-10, 2023-03-20], yet the filter excludes
it — the upper end is not inclusive as a calendar date. -/
theorem C5_upper_date_excluded_counterexample :
    epochToDate 1679324400 = "2023-03-20" ∧
    dateStrToEpoch "2023-03-10" ≤ dateStrToEpoch (epochToDate 1679324400) ∧
    dateStrToEpoch (epochToDate 1679324400) ≤ dateStrToEpoch "2023-03-20" ∧
    dateFilterPass "2023-03-20" "2023-03-10" 1679324400 = false :=
  ⟨by decide, by decide, by decide, by decide⟩

/-! ## Structure of the no-filter organise loop -/

theorem modifyAt_length_append {α : Type} (l : List α) (x : α) (f : α → α) :
    modifyAt (l ++ [x]) l.length f = l ++ [f x] := by
  induction l with
  | nil => rfl
  | cons a l ih => simp [modifyAt, ih]

theorem appendToPage_last (D : List (List Review)) (c : List Review) (rev : Review) :
    appendToPage ((D ++ [c]).map RLElem.chunk) D.length rev
      = (D ++ [c ++ [rev]]).map RLElem.chunk := by
  rw [appendToPage, List.map_append, List.map_singleton,
    show D.length = (D.map RLElem.chunk).length by simp, modifyAt_length_append]
  simp [List.map_append]

theorem orgStepNFD_canonical_eq (devs : List String) (gd : GameEntry)
    (done : List (List Review)) (cur : List Review) (r : RawReview) :
    orgStepNFD devs gd
        { review_list := (done ++ [cur]).map RLElem.chunk, counter := cur.length,
          pageNum := done.length } r
      = if cur.length = 5000 then
          { review_list := ((done ++ [cur]) ++ [[normalizeD devs gd r]]).map RLElem.chunk,
            counter := 1, pageNum := (done ++ [cur]).length }
        else
          { review_list := (done ++ [cur ++ [normalizeD devs gd r]]).map RLElem.chunk,
            counter := cur.length + 1, pageNum := done.length } := by
  by_cases h : cur.length = 5000
  · rw [if_pos h]
    simp only [orgStepNFD, h, beq_self_eq_true, if_true]
    have hmap : (done ++ [cur]).map RLElem.chunk ++ [RLElem.chunk []]
        = ((done ++ [cur]) ++ [[]]).map RLElem.chunk := by simp
    rw [hmap, show done.length + 1 = (done ++ [cur]).length by simp, appendToPage_last]
    simp
  · rw [if_neg h]
    have hbeq : (cur.length == 5000) = false := by simpa using h
    simp only [orgStepNFD, hbeq, Bool.false_eq_true, if_false]
    rw [appendToPage_last]

theorem orgFoldNFD_canonical (devs : List String) (gd : GameEntry) :
    ∀ (rs : List RawReview) (done : List (List Review)) (cur : List Review),
      (List.foldl (orgStepNFD devs gd)
          { review_list := (done ++ [cur]).map RLElem.chunk, counter := cur.length,
            pageNum := done.length } rs).review_list
        = (done ++ fillChunks cur (rs.map (normalizeD devs gd))).map RLElem.chunk := by
  intro rs
  induction rs with
  | nil =>
      intro done cur
      simp [fillChunks]
  | cons r rs ih =>
      intro done cur
      rw [List.foldl_cons, orgStepNFD_canonical_eq]
      by_cases h : cur.length = 5000
      · rw [if_pos h]
        have h2 := ih (done ++ [cur]) [normalizeD devs gd r]
        simp only [List.length_singleton] at h2
        rw [h2, List.map_cons]
        have hfill : fillChunks cur (normalizeD devs gd r :: rs.map (normalizeD devs gd))
            = cur :: fillChunks [normalizeD devs gd r] (rs.map (normalizeD devs gd)) := by
          simp [fillChunks, h]
        rw [hfill]
        simp [List.append_assoc]
      · rw [if_neg h]
        have h2 := ih done (cur ++ [normalizeD devs gd r])
        simp only [List.length_append, List.length_singleton] at h2
        rw [h2, List.map_cons]
        have hfill : fillChunks cur (normalizeD devs gd r :: rs.map (normalizeD devs gd))
            = fillChunks (cur ++ [normalizeD devs gd r]) (rs.map (normalizeD devs gd)) := by
          simp [fillChunks, h]
        rw [hfill]

theorem fillChunks_bridge :
    ∀ (rs : List Review) (cur : List Review), cur.length ≤ 5000 →
      fillChunks cur rs =
        if cur.length + rs.length ≤ 5000 then [cur ++ rs]
        else (cur ++ rs.take (5000 - cur.length)) :: chunks5000 (rs.drop (5000 - cur.length)) := by
  intro rs
  induction rs with
  | nil =>
      intro cur h
      rw [if_pos (by simpa using h)]
      simp [fillChunks]
  | cons x xs ih =>
      intro cur hcur
      by_cases h : cur.length = 5000
      · have hfill : fillChunks cur (x :: xs) = cur :: fillChunks [x] xs := by
          simp [fillChunks, h]
        have hsub : 5000 - cur.length = 0 := by omega
        rw [hfill, if_neg (by simp; omega), hsub]
        simp only [List.take_zero, List.append_nil, List.drop_zero]
        congr 1
        rw [ih [x] (by simp), chunks5000_eq (x :: xs)]
        have e1 : ([x] : List Review).length + xs.length ≤ 5000 ↔ (x :: xs).length ≤ 5000 := by
          simp
          omega
        by_cases h2 : (x :: xs).length ≤ 5000
        · rw [if_pos (e1.mpr h2), if_pos h2]
          simp
        · rw [if_neg (fun hA => h2 (e1.mp hA)), if_neg h2]
          have e2 : (5000 : Nat) - ([x] : List Review).length = 4999 := by simp
          have e3 : (x :: xs).take 5000 = x :: xs.take 4999 := by
            have h50 : (5000 : Nat) = 4999 + 1 := rfl
            rw [h50, List.take_succ_cons]
          have e4 : (x :: xs).drop 5000 = xs.drop 4999 := by
            have h50 : (5000 : Nat) = 4999 + 1 := rfl
            rw [h50, List.drop_succ_cons]
          rw [e2, e3, e4]
          simp
      · have hfill : fillChunks cur (x :: xs) = fillChunks (cur ++ [x]) xs := by
          simp [fillChunks, h]
        rw [hfill, ih (cur ++ [x]) (by simp; omega)]
        have e1 : (cur ++ [x]).length + xs.length ≤ 5000 ↔ cur.length + (x :: xs).length ≤ 5000 := by
          simp
          omega
        by_cases h2 : cur.length + (x :: xs).length ≤ 5000
        · rw [if_pos (e1.mpr h2), if_pos h2]
          simp
        · rw [if_neg (fun hA => h2 (e1.mp hA)), if_neg h2]
          have e2 : 5000 - cur.length = (5000 - ((cur ++ [x]).length)) + 1 := by
            simp
            omega
          rw [e2, List.take_succ_cons, List.drop_succ_cons]
          simp [List.append_assoc]

theorem fillChunks_eq_chunks5000 (rs : List Review) : fillChunks [] rs = chunks5000 rs := by
  rw [fillChunks_bridge rs [] (by simp), chunks5000_eq rs]
  simp

theorem orgStepNF_some (devs : List String) (gd : GameEntry) (h : gd.developers = some devs)
    (s : OrgState) (r : RawReview) :
    orgStepNF gd s r = some (orgStepNFD devs gd s r) := by
  simp [orgStepNF, orgStepNFD, normalize, h]

theorem foldlM_orgStepNF (devs : List String) (gd : GameEntry) (h : gd.developers = some devs) :
    ∀ (rs : List RawReview) (s : OrgState),
      List.foldlM (orgStepNF gd) s rs = some (List.foldl (orgStepNFD devs gd) s rs) := by
  intro rs
  induction rs with
  | nil => intro s; rfl
  | cons r rs ih =>
      intro s
      rw [List.foldlM_cons, orgStepNF_some devs gd h, List.foldl_cons]
      exact ih _

theorem foldlM_pages_flat (step : OrgState → RawReview → Option OrgState) :
    ∀ (pages : List RawPage) (s : OrgState),
      List.foldlM (fun s p => List.foldlM step s p.reviews) s pages
        = List.foldlM step s (allRaw pages) := by
  intro pages
  induction pages with
  | nil => intro s; rfl
  | cons p ps ih =>
      intro s
      have hsplit : allRaw (p :: ps) = p.reviews ++ allRaw ps := by simp [allRaw]
      simp only [List.foldlM_cons, hsplit, List.foldlM_append]
      cases hx : List.foldlM step s p.reviews with
      | none => simp [hx]
      | some s1 => simp [hx, ih]

theorem sortAll_map_chunk :
    ∀ (cs : List (List Review)),
      sortAll (cs.map RLElem.chunk)
        = some (cs.map fun c => RLElem.chunk (c.insertionSort keyLe)) := by
  intro cs
  induction cs with
  | nil => rfl
  | cons c cs ih => simp [sortAll, ih]

theorem organise_noFilter (pages : List RawPage) (gd : GameEntry) (devs : List String)
    (h : gd.developers = some devs) :
    organise_reviews pages gd none
      = some ((chunks5000 (allNorm devs gd pages)).map
          fun c => RLElem.chunk (c.insertionSort keyLe)) := by
  have hcanon := orgFoldNFD_canonical devs gd (allRaw pages) [] []
  simp only [List.nil_append, List.map_cons, List.map_nil, List.length_nil] at hcanon
  have hfold : pages.foldlM (fun s p => p.reviews.foldlM (orgStepNF gd) s)
      { review_list := [RLElem.chunk []], counter := 0, pageNum := 0 }
      = some (List.foldl (orgStepNFD devs gd)
          { review_list := [RLElem.chunk []], counter := 0, pageNum := 0 } (allRaw pages)) := by
    rw [foldlM_pages_flat]
    exact foldlM_orgStepNF devs gd h (allRaw pages) _
  have hmain : organise_reviews pages gd none
      = sortAll (List.foldl (orgStepNFD devs gd)
          { review_list := [RLElem.chunk []], counter := 0, pageNum := 0 }
          (allRaw pages)).review_list := by
    show (pages.foldlM (fun s p => p.reviews.foldlM (orgStepNF gd) s)
        { review_list := [RLElem.chunk []], counter := 0, pageNum := 0 })
        >>= (fun final => sortAll final.review_list) = _
    rw [hfold]
    rfl
  rw [hmain, hcanon, fillChunks_eq_chunks5000, sortAll_map_chunk]
  rfl

theorem flatten_map_sort_perm (cs : List (List Review)) :
    ((cs.map fun c => c.insertionSort keyLe).flatten).Perm cs.flatten := by
  induction cs with
  | nil => exact List.Perm.refl _
  | cons c cs ih =>
      simp only [List.map_cons, List.flatten_cons]
      exact (List.perm_insertionSort keyLe c).append ih

/-! ## Claim C1 -/

/-- C1 (amended): on the no-filter path, `organise_reviews` slices the
normalized sequence into chunks of at most 5000 entries *in input
order* — chunk `k` holds input indices `[5000k, 5000k + 5000)` — and
then sorts each chunk ascending by `(date, id)`; every returned chunk is
sorted, and 10001 reviews yield exactly 3 chunks of sizes 5000, 5000, 1.
(The sort is per chunk, not global, so concatenating the chunks yields a
permutation of the collection rather than its full sorted sequence.) -/
theorem C1_paginate_sorts_and_chunks (pages : List RawPage) (gd : GameEntry) (devs : List String)
    (h : gd.developers = some devs) :
    organise_reviews pages gd none
      = some ((chunks5000 (allNorm devs gd pages)).map
          fun c => RLElem.chunk (c.insertionSort keyLe)) ∧
    (∀ (k : Nat) (hk : k < (chunks5000 (allNorm devs gd pages)).length),
        (chunks5000 (allNorm devs gd pages))[k]
          = ((allNorm devs gd pages).drop (5000 * k)).take 5000) ∧
    (∀ out, organise_reviews pages gd none = some out →
        ∀ e ∈ out, (elemReviews e).Sorted keyLe) ∧
    ((allNorm devs gd pages).length = 10001 →
        ∃ out, organise_reviews pages gd none = some out ∧
          out.map (fun e => (elemReviews e).length) = [5000, 5000, 1]) := by
  refine ⟨organise_noFilter pages gd devs h, fun k hk => chunks5000_getElem _ k hk, ?_, ?_⟩
  · intro out hout e he
    rw [organise_noFilter pages gd devs h] at hout
    injection hout with hout
    rw [← hout] at he
    rcases List.mem_map.mp he with ⟨c, _, rfl⟩
    exact List.sorted_insertionSort keyLe c
  · intro hlen
    refine ⟨_, organise_noFilter pages gd devs h, ?_⟩
    rw [List.map_map]
    have hcomp : ((fun e => (elemReviews e).length) ∘ fun c => RLElem.chunk (c.insertionSort keyLe))
        = fun c : List Review => c.length := by
      funext c
      simp [elemReviews, List.length_insertionSort]
    rw [hcomp]
    exact chunks5000_map_length_10001 (allNorm devs gd pages) hlen

/-- Witness for C1 (amended), on the 10001-review run `wPages`. -/
theorem C1_paginate_sorts_and_chunks_witness :
    gd1.developers = some ["GameDev"] ∧
    (allNorm ["GameDev"] gd1 wPages).length = 10001 ∧
    (∃ out, organise_reviews wPages gd1 none = some out ∧
      out.map (fun e => (elemReviews e).length) = [5000, 5000, 1]) := by
  have hlen : (allNorm ["GameDev"] gd1 wPages).length = 10001 := by
    simp only [allNorm, allRaw, wPages, List.flatMap_cons, List.flatMap_nil, List.append_nil,
      List.map_replicate, List.length_replicate]
  exact ⟨rfl, hlen, (C1_paginate_sorts_and_chunks wPages gd1 ["GameDev"] rfl).2.2.2 hlen⟩

/-- Counterexample for C1 as stated: on the 5001-review run `cexPages`
(5000 late-dated reviews followed by one early one), concatenating the
returned chunks does not reproduce the globally sorted sequence — the
code sorts only within each chunk, and the early review is trapped in
chunk 1 although it sorts before everything in chunk 0. -/
theorem C1_global_sort_counterexample :
    (organise_reviews cexPages gd1 none).map (fun out => (out.map elemReviews).flatten)
      ≠ some (List.insertionSort keyLe (allNorm ["GameDev"] gd1 cexPages)) := by
  have hdL : revLate.date = "1970-01-02" := by decide
  have hdE : revEarly.date = "1970-01-01" := by decide
  have hAll : allNorm ["GameDev"] gd1 cexPages
      = List.replicate 5000 revLate ++ [revEarly] := by
    simp only [allNorm, allRaw, cexPages, revLate, revEarly, List.flatMap_cons,
      List.flatMap_nil, List.append_nil, List.map_append, List.map_replicate,
      List.map_cons, List.map_nil]
  have hchunks : chunks5000 (List.replicate 5000 revLate ++ [revEarly])
      = [List.replicate 5000 revLate, [revEarly]] := by
    rw [chunks5000_eq,
      if_neg (by
        simp only [List.length_append, List.length_replicate, List.length_singleton]
        omega)]
    rw [List.take_left' (by rw [List.length_replicate]),
      List.drop_left' (by rw [List.length_replicate])]
    rw [chunks5000_eq, if_pos (by simp only [List.length_singleton]; omega)]
  have hne : ¬ keyLe revLate revEarly := by
    intro hk
    rcases hk with hlt | ⟨heq, _⟩
    · rw [hdL, hdE, String.lt_iff_toList_lt] at hlt
      exact absurd hlt (by decide)
    · rw [hdL, hdE] at heq
      exact absurd heq (by decide)
  have hLHS : (organise_reviews cexPages gd1 none).map (fun out => (out.map elemReviews).flatten)
      = some (List.replicate 5000 revLate ++ [revEarly]) := by
    rw [organise_noFilter cexPages gd1 ["GameDev"] rfl, hAll, hchunks]
    simp only [List.map_cons, List.map_nil, Option.map_some']
    rw [insertionSort_replicate revLate 5000]
    simp only [List.insertionSort, List.orderedInsert, elemReviews, List.flatten_cons,
      List.flatten_nil, List.append_nil]
  intro hEq
  rw [hLHS, hAll, insertionSort_replicate_append revLate revEarly hne 5000] at hEq
  injection hEq with hEq
  have h50 : (5000 : Nat) = 4999 + 1 := rfl
  rw [h50, List.replicate_succ, List.cons_append] at hEq
  injection hEq with h1 _
  have hdate := congrArg Review.date h1
  rw [hdL, hdE] at hdate
  exact absurd hdate (by decide)

/-! ## Claim C6 -/

/-- C6: with bounds `(none, none)` the date filter is the identity
transform — every normalized review of the run is passed through to the
chunked output, none removed (the output chunks concatenate to a
permutation of the full normalized collection). -/
theorem C6_no_filter_identity (pages : List RawPage) (gd : GameEntry) (devs : List String)
    (h : gd.developers = some devs) :
    ∃ out, organise_reviews pages gd none = some out ∧
      ((out.map elemReviews).flatten).Perm (allNorm devs gd pages) := by
  refine ⟨_, organise_noFilter pages gd devs h, ?_⟩
  rw [List.map_map]
  have hcomp : (elemReviews ∘ fun c => RLElem.chunk (c.insertionSort keyLe))
      = fun c : List Review => c.insertionSort keyLe := rfl
  rw [hcomp]
  have h2 := flatten_map_sort_perm (chunks5000 (allNorm devs gd pages))
  rw [chunks5000_flatten] at h2
  exact h2

/-- Witness for C6 at the concrete one-review run. -/
theorem C6_no_filter_identity_witness :
    gd1.developers = some ["GameDev"] ∧
    ∃ out, organise_reviews [page1] gd1 none = some out ∧
      ((out.map elemReviews).flatten).Perm (allNorm ["GameDev"] gd1 [page1]) :=
  ⟨rfl, C6_no_filter_identity [page1] gd1 ["GameDev"] rfl⟩

/-! ## Claim C7 -/

theorem orgStepF_extends (gd : GameEntry) (f0 f1 : String) (s : OrgState) (r : RawReview)
    (s2 : OrgState) (h : orgStepF gd f0 f1 s r = some s2) :
    ∃ t, s2.review_list = s.review_list ++ t := by
  unfold orgStepF at h
  by_cases h5 : (s.counter == 5000) = true <;>
    by_cases hp : dateFilterPass f0 f1 r.timestamp_created = true <;>
      simp only [h5, hp, Bool.not_eq_true, if_true, if_false, Bool.false_eq_true] at h
  · cases hn : normalize r gd with
    | none => rw [hn] at h; cases h
    | some rev =>
        rw [hn] at h
        injection h with h
        exact ⟨[RLElem.chunk []] ++ [RLElem.dict rev], by rw [← h]; simp⟩
  · injection h with h
    exact ⟨[RLElem.chunk []], by rw [← h]⟩
  · cases hn : normalize r gd with
    | none => rw [hn] at h; cases h
    | some rev =>
        rw [hn] at h
        injection h with h
        exact ⟨[RLElem.dict rev], by rw [← h]⟩
  · injection h with h
    exact ⟨[], by rw [← h]; simp⟩

theorem foldlM_orgStepF_extends (gd : GameEntry) (f0 f1 : String) :
    ∀ (l : List RawReview) (s s2 : OrgState),
      List.foldlM (orgStepF gd f0 f1) s l = some s2 →
      ∀ x ∈ s.review_list, x ∈ s2.review_list := by
  intro l
  induction l with
  | nil =>
      intro s s2 h x hx
      simp only [List.foldlM_nil] at h
      injection h with h
      rwa [← h]
  | cons r l ih =>
      intro s s2 h x hx
      rw [List.foldlM_cons] at h
      cases hstep : orgStepF gd f0 f1 s r with
      | none => rw [hstep] at h; cases h
      | some s1 =>
          rw [hstep] at h
          have h2 : List.foldlM (orgStepF gd f0 f1) s1 l = some s2 := h
          obtain ⟨t, ht⟩ := orgStepF_extends gd f0 f1 s r s1 hstep
          exact ih s1 s2 h2 x (by rw [ht]; exact List.mem_append_left _ hx)

theorem orgStepF_pass_dict (gd : GameEntry) (f0 f1 : String) (s : OrgState) (r : RawReview)
    (s1 : OrgState) (hp : dateFilterPass f0 f1 r.timestamp_created = true)
    (hstep : orgStepF gd f0 f1 s r = some s1) :
    ∃ d, RLElem.dict d ∈ s1.review_list := by
  unfold orgStepF at hstep
  by_cases h5 : (s.counter == 5000) = true <;>
    simp only [h5, hp, if_true, if_false, Bool.false_eq_true] at hstep <;>
    · cases hn : normalize r gd with
      | none => rw [hn] at hstep; cases hstep
      | some rev =>
          rw [hn] at hstep
          injection hstep with hstep
          exact ⟨rev, by rw [← hstep]; simp⟩

theorem foldlM_orgStepF_dict (gd : GameEntry) (f0 f1 : String) :
    ∀ (l : List RawReview) (s s2 : OrgState),
      (∃ r ∈ l, dateFilterPass f0 f1 r.timestamp_created = true) →
      List.foldlM (orgStepF gd f0 f1) s l = some s2 →
      ∃ d, RLElem.dict d ∈ s2.review_list := by
  intro l
  induction l with
  | nil =>
      intro s s2 hex _
      obtain ⟨r, hr, _⟩ := hex
      cases hr
  | cons r l ih =>
      intro s s2 hex h
      rw [List.foldlM_cons] at h
      cases hstep : orgStepF gd f0 f1 s r with
      | none => rw [hstep] at h; cases h
      | some s1 =>
          rw [hstep] at h
          have h2 : List.foldlM (orgStepF gd f0 f1) s1 l = some s2 := h
          obtain ⟨r2, hr2, hp2⟩ := hex
          rcases List.mem_cons.mp hr2 with heq | hmem
          · obtain ⟨d, hd⟩ := orgStepF_pass_dict gd f0 f1 s r s1 (heq ▸ hp2) hstep
            exact ⟨d, foldlM_orgStepF_extends gd f0 f1 l s1 s2 h2 _ hd⟩
          · exact ih s1 s2 ⟨r2, hmem, hp2⟩ h2

theorem sortAll_dict_none :
    ∀ (rl : List RLElem), (∃ d, RLElem.dict d ∈ rl) → sortAll rl = none := by
  intro rl
  induction rl with
  | nil =>
      intro hex
      obtain ⟨d, hd⟩ := hex
      cases hd
  | cons e rest ih =>
      intro hex
      obtain ⟨d, hd⟩ := hex
      cases e with
      | dict r => rfl
      | chunk l =>
          rcases List.mem_cons.mp hd with heq | hmem
          · exact RLElem.noConfusion heq
          · simp [sortAll, ih ⟨d, hmem⟩]

/-- C7: when date bounds are supplied and at least one review is in
range, that review is appended to `review_list` at top level (line 215)
rather than into the current chunk, so the result is not a sequence of
chunks and the per-element sorting step fails (a `TypeError` in the
source, `none` in the model): `organise_reviews` produces no chunked
output on the filter path. -/
theorem C7_filter_path_breaks_chunking (pages : List RawPage) (gd : GameEntry) (f0 f1 : String)
    (h : ∃ r ∈ allRaw pages, dateFilterPass f0 f1 r.timestamp_created = true) :
    organise_reviews pages gd (some (f0, f1)) = none := by
  have hflat : pages.foldlM (fun s p => p.reviews.foldlM (orgStepF gd f0 f1) s)
      { review_list := [RLElem.chunk []], counter := 0, pageNum := 0 }
      = List.foldlM (orgStepF gd f0 f1)
          { review_list := [RLElem.chunk []], counter := 0, pageNum := 0 } (allRaw pages) :=
    foldlM_pages_flat (orgStepF gd f0 f1) pages _
  show (pages.foldlM (fun s p => p.reviews.foldlM (orgStepF gd f0 f1) s)
      { review_list := [RLElem.chunk []], counter := 0, pageNum := 0 })
      >>= (fun final => sortAll final.review_list) = none
  rw [hflat]
  cases hf : List.foldlM (orgStepF gd f0 f1)
      { review_list := [RLElem.chunk []], counter := 0, pageNum := 0 } (allRaw pages) with
  | none => rfl
  | some s2 =>
      have hd := foldlM_orgStepF_dict gd f0 f1 (allRaw pages) _ s2 h hf
      show sortAll s2.review_list = none
      exact sortAll_dict_none _ hd

/-- Witness for C7: the one-review run with bounds
(2023-03-20, 2021-01-01) has its review (2021-10-04) in range, and the
organise call fails. -/
theorem C7_filter_path_breaks_chunking_witness :
    (∃ r ∈ allRaw [page1],
        dateFilterPass "2023-03-20" "2021-01-01" r.timestamp_created = true) ∧
    organise_reviews [page1] gd1 (some ("2023-03-20", "2021-01-01")) = none := by
  have hex : ∃ r ∈ allRaw [page1],
      dateFilterPass "2023-03-20" "2021-01-01" r.timestamp_created = true := by
    refine ⟨raw1, ?_, by decide⟩
    simp [allRaw, page1]
  exact ⟨hex, C7_filter_path_breaks_chunking [page1] gd1 "2023-03-20" "2021-01-01" hex⟩

/-! ## UUID length lemmas -/

theorem sha1Block_length (H b : List Nat) : (sha1Block H b).length = 5 := rfl

theorem sha1Blocks_length (n : Nat) :
    ∀ H b, H.length = 5 → (sha1Blocks n H b).length = 5 := by
  induction n with
  | zero => intro H b h; exact h
  | succ n ih => intro H b _; exact ih _ _ (sha1Block_length H (b.take 64))

theorem sha1Bytes_length (msg : List Nat) : (sha1Bytes msg).length = 20 := by
  show ((sha1Blocks _ sha1H0 _).flatMap (natToBytesBE 4)).length = 20
  rw [length_flatMap_const _ 4 _ (fun x => natToBytesBE_length 4 x),
    sha1Blocks_length _ sha1H0 _ rfl]

theorem uuidFormat_length (b : List Nat) (hb : b.length = 16) : (uuidFormat b).length = 36 := by
  have hx : (b.flatMap (toHexFixed 2)).length = 32 := by
    rw [length_flatMap_const _ 2 _ (fun x => toHexFixed_length 2 x), hb]
  show ((b.flatMap (toHexFixed 2)).take 8 ++ '-' :: (((b.flatMap (toHexFixed 2)).drop 8).take 4)
      ++ '-' :: (((b.flatMap (toHexFixed 2)).drop 12).take 4)
      ++ '-' :: (((b.flatMap (toHexFixed 2)).drop 16).take 4)
      ++ '-' :: (b.flatMap (toHexFixed 2)).drop 20).length = 36
  simp [List.length_append, List.length_take, List.length_drop, hx]

theorem uuid5dns_length (name : String) : (uuid5dns name).length = 36 := by
  unfold uuid5dns
  apply uuidFormat_length
  simp [List.length_set, List.length_take, sha1Bytes_length]

/-! ## Claim C3 -/

/-- C3: `id` and `author` are pure functions of their inputs — `author`
depends on the raw author identifier alone (identical raw ids yield
identical anonymized values whatever the other fields), `id` is
`generate_id` of (appName, content, rawAuthorId); two concrete reviews
with the same raw author id and different content get the same `author`
and different `id`s; and the raw identifier is never stored: the stored
`author` is the 36-character anonymized rendering, never the raw id
itself (whenever the raw id does not happen to have length 36). -/
theorem C3_id_author_pure_functions :
    (∀ (author d c src app d2 c2 src2 app2 : String) (h cm hp f h2 cm2 hp2 f2 : Nat)
        (rec rec2 : Bool) (fr fr2 : List String),
      (mkReview author d h c cm src hp f rec fr app).author
        = (mkReview author d2 h2 c2 cm2 src2 hp2 f2 rec2 fr2 app2).author) ∧
    (∀ (author d c src app : String) (h cm hp f : Nat) (rec : Bool) (fr : List String),
      (mkReview author d h c cm src hp f rec fr app).id = generate_id app c author) ∧
    ((mkReview "author123" "2023-10-07" 100 "Great game!" 5 "steam" 10 2 true
        ["GameDev"] "CoolGame").author
      = (mkReview "author123" "2023-10-07" 100 "Bad game." 5 "steam" 10 2 true
        ["GameDev"] "CoolGame").author) ∧
    ((mkReview "author123" "2023-10-07" 100 "Great game!" 5 "steam" 10 2 true
        ["GameDev"] "CoolGame").id
      ≠ (mkReview "author123" "2023-10-07" 100 "Bad game." 5 "steam" 10 2 true
        ["GameDev"] "CoolGame").id) ∧
    (∀ (author d c src app : String) (h cm hp f : Nat) (rec : Bool) (fr : List String),
      (uuid5dns author).length = 36 ∧
      (author.length ≠ 36 →
        (mkReview author d h c cm src hp f rec fr app).author ≠ author)) := by
  refine ⟨by intros; rfl, by intros; rfl, rfl, by decide, ?_⟩
  intro author d c src app h cm hp f rec fr
  refine ⟨uuid5dns_length author, fun hlen heq => hlen ?_⟩
  have h36 : (mkReview author d h c cm src hp f rec fr app).author.length = 36 :=
    uuid5dns_length author
  rw [heq] at h36
  exact h36

/-- Witness for C3: the concrete raw id `"author123"` has length 9, and
the stored author of the corresponding record differs from it. -/
theorem C3_id_author_pure_functions_witness :
    ("author123".length ≠ 36) ∧
    (mkReview "author123" "2023-10-07" 100 "Great game!" 5 "steam" 10 2 true
        ["GameDev"] "CoolGame").author ≠ "author123" :=
  ⟨by decide,
    (C3_id_author_pure_functions.2.2.2.2 "author123" "2023-10-07" "Great game!" "steam"
      "CoolGame" 100 5 10 2 true ["GameDev"]).2 (by decide)⟩

/-! ## Claim C8 -/

/-- C8: the fetcher stops after the zero-result signal, whichever comes
first with the page limit: for a provider whose first response is
non-empty and whose second reports zero reviews, any run with page limit
at least 2 issues exactly two page requests plus exactly one metadata
request, and its outcome is identical to the limit-2 run. -/
theorem C8_fetcher_stops_after_zero_signal (provider : Nat → RawPage) (gd : GameEntry) (n : Nat)
    (h0 : (provider 0).num_reviews ≠ 0) (h1 : (provider 1).num_reviews = 0) (hn : 2 ≤ n) :
    (fetch_app_data provider gd n).pageRequests = 2 ∧
    (fetch_app_data provider gd n).metaRequests = 1 ∧
    fetch_app_data provider gd n = fetch_app_data provider gd 2 := by
  obtain ⟨m, rfl⟩ : ∃ m, n = m + 2 := ⟨n - 2, by omega⟩
  have hb0 : ((provider 0).num_reviews == 0) = false := by simpa using h0
  have hb1 : ((provider 1).num_reviews == 0) = true := by simpa using h1
  have hloop : ∀ k, fetchLoop provider (k + 2) 0 [] none
      = ([provider 0], some (provider 1), 2) := by
    intro k
    simp [fetchLoop, hb0, hb1]
  have hloop2 : fetchLoop provider 2 0 [] none = ([provider 0], some (provider 1), 2) :=
    hloop 0
  refine ⟨?_, ?_, ?_⟩
  · simp only [fetch_app_data, hloop m]
  · simp only [fetch_app_data, hloop m]
  · simp only [fetch_app_data, hloop m, hloop2]

/-- Witness for C8: the two-page provider `provider2` with requested
limit 9 behaves exactly as with limit 2. -/
theorem C8_fetcher_stops_after_zero_signal_witness :
    ((provider2 0).num_reviews ≠ 0) ∧ ((provider2 1).num_reviews = 0) ∧ (2 ≤ 9) ∧
    ((fetch_app_data provider2 gd1 9).pageRequests = 2 ∧
      (fetch_app_data provider2 gd1 9).metaRequests = 1 ∧
      fetch_app_data provider2 gd1 9 = fetch_app_data provider2 gd1 2) := by
  have h0 : (provider2 0).num_reviews ≠ 0 := by decide
  have h1 : (provider2 1).num_reviews = 0 := by decide
  exact ⟨h0, h1, by omega,
    C8_fetcher_stops_after_zero_signal provider2 gd1 9 h0 h1 (by omega)⟩

/-! ## Claim C9 -/

/-- C9: the fetch fails iff the last review page response or the metadata
response does not report success; on failure the result is the single
uniform `"reviews not found"` value carrying no pages, otherwise the
accumulated pages are returned together with the app metadata (and the
run always issues exactly one metadata request). -/
theorem C9_fetch_failure_iff (provider : Nat → RawPage) (gd : GameEntry) (n : Nat)
    (hn : 1 ≤ n) :
    ((fetch_app_data provider gd n).result = .error "reviews not found" ↔
        ¬ (lastRespOk (fetchLoop provider n 0 [] none).2.1 = true ∧ gd.success = some true)) ∧
    ((fetch_app_data provider gd n).result = .error "reviews not found" ∨
      (fetch_app_data provider gd n).result = .ok ((fetchLoop provider n 0 [] none).1, gd)) ∧
    (fetch_app_data provider gd n).metaRequests = 1 := by
  rcases hl : fetchLoop provider n 0 [] none with ⟨pages, last, reqs⟩
  simp only [fetch_app_data, hl]
  by_cases hc : (lastRespOk last && (gd.success == some true)) = true
  · rcases (Bool.and_eq_true _ _).mp hc with ⟨hcl, hcr⟩
    have hgd : gd.success = some true := by simpa using hcr
    rw [if_pos hc]
    refine ⟨?_, Or.inr rfl, trivial⟩
    constructor
    · intro he
      cases he
    · intro hneg
      exact absurd ⟨hcl, hgd⟩ hneg
  · rw [if_neg hc]
    refine ⟨⟨fun _ => ?_, fun _ => rfl⟩, Or.inl rfl, trivial⟩
    intro hand
    obtain ⟨hA, hB⟩ := hand
    exact hc ((Bool.and_eq_true _ _).mpr ⟨hA, by simpa using hB⟩)

/-- Witness for C9 at the concrete provider and metadata of `test.py`. -/
theorem C9_fetch_failure_iff_witness :
    (1 ≤ 1) ∧
    (((fetch_app_data provider2 gd1 1).result = .error "reviews not found" ↔
        ¬ (lastRespOk (fetchLoop provider2 1 0 [] none).2.1 = true ∧
            gd1.success = some true)) ∧
      ((fetch_app_data provider2 gd1 1).result = .error "reviews not found" ∨
        (fetch_app_data provider2 gd1 1).result = .ok ((fetchLoop provider2 1 0 [] none).1, gd1)) ∧
      (fetch_app_data provider2 gd1 1).metaRequests = 1) :=
  ⟨le_refl 1, C9_fetch_failure_iff provider2 gd1 1 (le_refl 1)⟩

end Crawler
